import Mathlib

/-!
Verification development for the RIPE Atlas binary-test-file converter
(`convert_binary_tests_to_json.py`).

The Python source is shallowly embedded: byte strings become `List Nat`
(each element a byte value), `struct.unpack` reads on in-range slices become
arithmetic over `List.getD`, Python exceptions become `Option`, and the
stream reader becomes a well-founded recursive function over the remaining
byte list.  All definitions are executable.
-/

namespace AtlasConvert

/-- Response type constants from the source header. -/
def RESP_PACKET : Nat := 1

/-- Socket-name record code. -/
def RESP_SOCKNAME : Nat := 2

/-- Destination-address record code. -/
def RESP_DSTADDR : Nat := 3

/-- Peer-name record code (context-overloaded with the read-error code). -/
def RESP_PEERNAME : Nat := 4

/-- Read-error record code (same numeric value as the peer-name code). -/
def RESP_READ_ERROR : Nat := 4

/-- Resolver record code. -/
def RESP_RESOLVER : Nat := 5

/-- Length record code. -/
def RESP_LENGTH : Nat := 6

/-- Generic-data record code. -/
def RESP_DATA : Nat := 7

/-- Control-message record code. -/
def RESP_CMSG : Nat := 8

/-- Timeout record code. -/
def RESP_TIMEOUT : Nat := 9

/-- Address-info record code. -/
def RESP_ADDRINFO : Nat := 10

/-- Address-info sockaddr record code. -/
def RESP_ADDRINFO_SA : Nat := 11

/-- IPv4 address family tag. -/
def AF_INET : Nat := 2

/-- IPv6 address family tag (Linux value). -/
def AF_INET6 : Nat := 10

/-- IPv6 address family tag (FreeBSD value). -/
def AF_INET6_LOCAL : Nat := 28

/-- Little-endian 16-bit read at offset `i`, i.e. `struct.unpack('<H', l[i:i+2])`
on an in-range slice. -/
def leU16 (l : List Nat) (i : Nat) : Nat :=
  l.getD i 0 + 256 * l.getD (i + 1) 0

/-- Big-endian 16-bit read at offset `i`, i.e. `struct.unpack('>H', l[i:i+2])`
on an in-range slice. -/
def beU16 (l : List Nat) (i : Nat) : Nat :=
  256 * l.getD i 0 + l.getD (i + 1) 0

/-- Little-endian 32-bit read at offset `i`, i.e. `struct.unpack('<I', l[i:i+4])`
on an in-range slice. -/
def leU32 (l : List Nat) (i : Nat) : Nat :=
  l.getD i 0 + 256 * l.getD (i + 1) 0 + 65536 * l.getD (i + 2) 0 +
    16777216 * l.getD (i + 3) 0

/-- Dotted-decimal text of four octets, as produced by `socket.inet_ntoa`. -/
def ipv4Dotted (a b c d : Nat) : String :=
  toString a ++ "." ++ toString b ++ "." ++ toString c ++ "." ++ toString d

/-- Embedding of `socket.inet_ntoa`: succeeds exactly on 4-byte inputs
(raises `OSError` otherwise, modelled as `none`). -/
def inet_ntoa (l : List Nat) : Option String :=
  match l with
  | [a, b, c, d] => some (ipv4Dotted a b c d)
  | _ => none

/-- The eight big-endian 16-bit groups of a 16-byte IPv6 address. -/
def ipv6words (l : List Nat) : List Nat :=
  (List.range 8).map (fun i => 256 * l.getD (2 * i) 0 + l.getD (2 * i + 1) 0)

/-- Keep the longer of a just-finished zero run and the best run so far;
the earlier run wins ties (strict comparison, as in the C library). -/
def mergeBest : Option (Nat × Nat) → Option (Nat × Nat) → Option (Nat × Nat)
  | some cur, some best => if best.2 < cur.2 then some cur else some best
  | some cur, none => some cur
  | none, best => best

/-- Scan the word list for the best (first-longest) run of zero words.
State: current run (start, length) and best run so far. -/
def scanZeros : List Nat → Nat → Option (Nat × Nat) → Option (Nat × Nat) →
    Option (Nat × Nat)
  | [], _, cur, best => mergeBest cur best
  | w :: ws, i, cur, best =>
    if w = 0 then
      match cur with
      | none => scanZeros ws (i + 1) (some (i, 1)) best
      | some (b, n) => scanZeros ws (i + 1) (some (b, n + 1)) best
    else
      match cur with
      | none => scanZeros ws (i + 1) none best
      | some c => scanZeros ws (i + 1) none (mergeBest (some c) best)

/-- Best zero run of the word list; runs of length < 2 are discarded,
as in the C library. -/
def bestZeroRun (ws : List Nat) : Option (Nat × Nat) :=
  match scanZeros ws 0 none none with
  | some (b, n) => if n < 2 then none else some (b, n)
  | none => none

/-- Whether index `i` lies inside the best zero run. -/
def inBest (best : Option (Nat × Nat)) (i : Nat) : Bool :=
  match best with
  | some (b, n) => decide (b ≤ i) && decide (i < b + n)
  | none => false

/-- Whether index `i` is the start of the best zero run. -/
def isBase (best : Option (Nat × Nat)) (i : Nat) : Bool :=
  match best with
  | some (b, _) => i == b
  | none => false

/-- The C library's embedded-IPv4 condition at word index 6. -/
def ipv4Embedded (best : Option (Nat × Nat)) (ws : List Nat) : Bool :=
  match best with
  | some (b, n) =>
    b == 0 &&
      (n == 6 || (n == 7 && ws.getD 7 0 != 1) || (n == 5 && ws.getD 5 0 == 65535))
  | none => false

/-- Lowercase hexadecimal text of a number, no leading zeros (`printf "%x"`). -/
def hexNat (n : Nat) : String :=
  String.mk (Nat.toDigits 16 n)

/-- Rendering loop of the C library's `inet_ntop` for IPv6: one step per word
index, compressing the best zero run to `::` and handling the embedded-IPv4
form at index 6 (which ends the loop early, like the C `break`). -/
def ntop6Go (l ws : List Nat) (best : Option (Nat × Nat)) :
    Nat → Nat → String → String
  | 0, _, acc => acc
  | rem + 1, i, acc =>
    if inBest best i then
      ntop6Go l ws best rem (i + 1) (if isBase best i then acc ++ ":" else acc)
    else
      let acc1 := if i ≠ 0 then acc ++ ":" else acc
      if i = 6 ∧ ipv4Embedded best ws = true then
        acc1 ++ ipv4Dotted (l.getD 12 0) (l.getD 13 0) (l.getD 14 0) (l.getD 15 0)
      else
        ntop6Go l ws best rem (i + 1) (acc1 ++ hexNat (ws.getD i 0))

/-- Embedding of `socket.inet_ntop(AF_INET6, l)` for a 16-byte address,
following the C library algorithm used by CPython on this platform. -/
def ipv6_ntop (l : List Nat) : String :=
  let ws := ipv6words l
  let best := bestZeroRun ws
  let out := ntop6Go l ws best 8 0 ""
  match best with
  | some (b, n) => if b + n = 8 then out ++ ":" else out
  | none => out

/-- A decoded socket address as emitted into the JSON document.  Fields that
the Python dict omits are `none` here (`flowinfo` and `scope_id` exist only
for IPv6; a blank IPv4 address is `address = none`). -/
structure SockAddrIn where
  family : String
  address : Option String
  port : Nat
  flowinfo : Option Nat
  scope_id : Option Nat
deriving Repr, DecidableEq

/-- Tail of `parse_sockaddr` after the family-0 heuristic block: dispatch on
the explicit family tags.  In the `AF_INET` branch the `inet_ntoa` argument
has exactly 4 bytes whenever the length guard passed, so its failure case is
unreachable (in Python an exception there would propagate; it cannot occur). -/
def parse_sockaddr_tail (data : List Nat) (family : Nat) : Option SockAddrIn :=
  if family = AF_INET then
    if data.length < 8 then none
    else
      match inet_ntoa ((data.drop 4).take 4) with
      | some addr_str =>
        some ⟨"AF_INET", some addr_str, leU16 data 2, none, none⟩
      | none => none
  else if family = AF_INET6 ∨ family = AF_INET6_LOCAL then
    if data.length < 24 then none
    else
      some ⟨"AF_INET6", some (ipv6_ntop ((data.drop 8).take 16)), leU16 data 2,
        some (leU32 data 4),
        if 28 ≤ data.length then some (leU32 data 24) else none⟩
  else none

/-- Embedding of `parse_sockaddr`.  The family-0 heuristic comes first; its
`try/except` around `inet_ntoa` is the `match`: on `none` (the Python
exception) control falls through to the explicit-family dispatch, which
returns `none` for family 0.  The Python local `port` is inlined at both of
its use sites. -/
def parse_sockaddr (data : List Nat) (family : Nat) : Option SockAddrIn :=
  if family = 0 ∧ 8 ≤ data.length then
    match inet_ntoa ((data.drop 8).take 4) with
    | some addr_str =>
      if addr_str = "0.0.0.0" then
        some ⟨"AF_INET", none,
          if beU16 data 6 = 80 then beU16 data 6
          else if leU16 data 6 = 80 then leU16 data 6 else leU16 data 6,
          none, none⟩
      else
        some ⟨"AF_INET", some addr_str,
          if beU16 data 6 = 80 then beU16 data 6
          else if leU16 data 6 = 80 then leU16 data 6 else leU16 data 6,
          none, none⟩
    | none => parse_sockaddr_tail data family
  else parse_sockaddr_tail data family

/-- The standard base64 alphabet. -/
def b64chars : List Char :=
  "ABCDEFGHIJKLMNOPQRSTUVWXYZabcdefghijklmnopqrstuvwxyz0123456789+/".toList

/-- Character for a 6-bit value. -/
def b64char (n : Nat) : Char := b64chars.getD n 'A'

/-- Index of a character in the base64 alphabet. -/
def b64val (c : Char) : Nat := b64chars.indexOf c

/-- Embedding of `base64.b64encode`: standard alphabet with `=` padding. -/
def b64encode : List Nat → List Char
  | [] => []
  | [a] => [b64char (a / 4), b64char (a % 4 * 16), '=', '=']
  | [a, b] => [b64char (a / 4), b64char (a % 4 * 16 + b / 16), b64char (b % 16 * 4), '=']
  | a :: b :: c :: rest =>
    b64char (a / 4) :: b64char (a % 4 * 16 + b / 16) ::
      b64char (b % 16 * 4 + c / 64) :: b64char (c % 64) :: b64encode rest

/-- Base64 encoding as a string, as stored in the JSON document. -/
def b64encodeStr (l : List Nat) : String := String.mk (b64encode l)

/-- Inverse of `b64encode` on well-formed input: decode 4-character groups,
honouring `=` padding. -/
def b64decode : List Char → List Nat
  | c1 :: c2 :: c3 :: c4 :: rest =>
    if c3 = '=' then [b64val c1 * 4 + b64val c2 / 16]
    else if c4 = '=' then
      [b64val c1 * 4 + b64val c2 / 16, b64val c2 % 16 * 16 + b64val c3 / 4]
    else
      (b64val c1 * 4 + b64val c2 / 16) :: (b64val c2 % 16 * 16 + b64val c3 / 4) ::
        (b64val c3 % 4 * 64 + b64val c4) :: b64decode rest
  | _ => []

/-- Two lowercase hex digits of one byte, as in `bytes.hex`. -/
def hexByte (b : Nat) : List Char :=
  [Nat.digitChar (b / 16), Nat.digitChar (b % 16)]

/-- Embedding of `bytes.hex`: lowercase hex, two digits per byte. -/
def hexStr (l : List Nat) : String :=
  String.mk ((l.map hexByte).flatten)

/-- One step of permissive UTF-8 decoding: given the first byte and the rest
of the input, the number of bytes consumed (at least 1) and the characters
produced (empty when the sequence is invalid and the byte is dropped). -/
def utf8Step (b0 : Nat) (rest : List Nat) : Nat × List Char :=
  if b0 < 128 then (1, [Char.ofNat b0])
  else
    match rest with
    | b1 :: rest1 =>
      if 194 ≤ b0 ∧ b0 ≤ 223 ∧ 128 ≤ b1 ∧ b1 ≤ 191 then
        (2, [Char.ofNat ((b0 - 192) * 64 + (b1 - 128))])
      else
        match rest1 with
        | b2 :: rest2 =>
          if 224 ≤ b0 ∧ b0 ≤ 239 ∧ 128 ≤ b1 ∧ b1 ≤ 191 ∧ 128 ≤ b2 ∧ b2 ≤ 191 ∧
              (b0 ≠ 224 ∨ 160 ≤ b1) ∧ (b0 ≠ 237 ∨ b1 ≤ 159) then
            (3, [Char.ofNat ((b0 - 224) * 4096 + (b1 - 128) * 64 + (b2 - 128))])
          else
            match rest2 with
            | b3 :: _ =>
              if 240 ≤ b0 ∧ b0 ≤ 244 ∧ 128 ≤ b1 ∧ b1 ≤ 191 ∧ 128 ≤ b2 ∧ b2 ≤ 191 ∧
                  128 ≤ b3 ∧ b3 ≤ 191 ∧ (b0 ≠ 240 ∨ 144 ≤ b1) ∧ (b0 ≠ 244 ∨ b1 ≤ 143)
              then
                (4, [Char.ofNat ((b0 - 240) * 262144 + (b1 - 128) * 4096 +
                  (b2 - 128) * 64 + (b3 - 128))])
              else (1, [])
            | [] => (1, [])
        | [] => (1, [])
    | [] => (1, [])

/-- Embedding of `bytes.decode('utf-8', errors='ignore')`: valid sequences
become characters, invalid bytes are dropped.  Total on every byte list —
the error handler never raises. -/
def utf8DecodeIgnore : List Nat → List Char
  | [] => []
  | b0 :: rest =>
    let s := utf8Step b0 rest
    s.2 ++ utf8DecodeIgnore (rest.drop (s.1 - 1))
termination_by l => l.length
decreasing_by simp [List.length_drop]; omega

/-- The `try` around the permissive decode step.  The exception channel of the
`try` block is the `none` case; the `errors='ignore'` decoder is total, so the
wrapped value is always `some`. -/
def tryDecodeUtf8Ignore (l : List Nat) : Option String :=
  some (String.mk (utf8DecodeIgnore l))

/-- The `data` field of one converted record: each constructor is one dict
shape the converter can emit. -/
inductive RespData where
  | sockaddr (sa : SockAddrIn)
  | rawAddr (raw_base64 : String) (raw_hex : String)
  | packet (size : Nat) (base64 : String) (hex : String)
  | textData (text : String) (size : Nat) (base64 : String)
  | rawData (base64 : String) (hex : String) (size : Nat)
  | timeoutMarker
  | errorMarker
deriving Repr, DecidableEq

/-- The shared hex-with-truncation expression: full hex when the size is at
most 100 bytes, else hex of the first 100 bytes plus the `...` marker. -/
def truncHex (resp_size : Nat) (resp_data : List Nat) : String :=
  if resp_size ≤ 100 then hexStr resp_data
  else hexStr (resp_data.take 100) ++ "..."

/-- Embedding of the type-dispatch in `convert_binary_file`: produce the
`data` value for one record from its type code, size and payload. -/
def decodeRespData (resp_type resp_size : Nat) (resp_data : List Nat) : RespData :=
  if (resp_type = RESP_DSTADDR ∨ resp_type = RESP_SOCKNAME ∨
      resp_type = RESP_PEERNAME) ∧ 6 ≤ resp_size then
    match parse_sockaddr (resp_data.drop 4) (leU16 resp_data 4) with
    | some sa => RespData.sockaddr sa
    | none => RespData.rawAddr (b64encodeStr resp_data) (hexStr resp_data)
  else if resp_type = RESP_PACKET then
    RespData.packet resp_size (b64encodeStr resp_data) (truncHex resp_size resp_data)
  else if resp_type = RESP_DATA then
    match tryDecodeUtf8Ignore resp_data with
    | some t => RespData.textData t resp_size (b64encodeStr resp_data)
    | none =>
      RespData.rawData (b64encodeStr resp_data) (truncHex resp_size resp_data) resp_size
  else if resp_type = RESP_TIMEOUT then RespData.timeoutMarker
  else if resp_type = RESP_READ_ERROR then RespData.errorMarker
  else
    RespData.rawData (b64encodeStr resp_data) (truncHex resp_size resp_data) resp_size

/-- Embedding of the record-stream read loop: read a 4-byte little-endian
type, a 4-byte little-endian size, then exactly `size` payload bytes; stop
(discarding any partial record) as soon as fewer bytes are available than a
read requires. -/
def rawRecords (l : List Nat) : List (Nat × Nat × List Nat) :=
  if _h4 : l.length < 4 then []
  else if _h8 : l.length < 8 then []
  else if _hs : (l.drop 8).length < leU32 l 4 then []
  else (leU32 l 0, leU32 l 4, (l.drop 8).take (leU32 l 4)) ::
    rawRecords ((l.drop 8).drop (leU32 l 4))
termination_by l.length
decreasing_by simp [List.length_drop]; omega

/-- One converted record: type, size and decoded data, as placed in the
`responses` list of the output document. -/
structure RespRecord where
  rtype : Nat
  size : Nat
  data : RespData
deriving Repr, DecidableEq

/-- Full conversion of one capture file's byte stream into its record list. -/
def convertStream (l : List Nat) : List RespRecord :=
  (rawRecords l).map (fun r => ⟨r.1, r.2.1, decodeRespData r.1 r.2.1 r.2.2⟩)

/-! Helper lemmas about byte-list slicing. -/

theorem getD_drop (l : List Nat) (n i : Nat) :
    (l.drop n).getD i 0 = l.getD (n + i) 0 := by
  simp [List.getD_eq_getElem?_getD, List.getElem?_drop]

theorem getD_take_of_lt (l : List Nat) {k i : Nat} (h : i < k) :
    (l.take k).getD i 0 = l.getD i 0 := by
  simp [List.getD_eq_getElem?_getD, List.getElem?_take_of_lt h]

theorem take_four (l : List Nat) (h : 4 ≤ l.length) :
    l.take 4 = [l.getD 0 0, l.getD 1 0, l.getD 2 0, l.getD 3 0] := by
  rcases l with _ | ⟨a, _ | ⟨b, _ | ⟨c, _ | ⟨d, t⟩⟩⟩⟩
  all_goals first
    | rfl
    | simp at h

theorem take4_drop (l : List Nat) (i : Nat) (h : i + 4 ≤ l.length) :
    (l.drop i).take 4 =
      [l.getD i 0, l.getD (i + 1) 0, l.getD (i + 2) 0, l.getD (i + 3) 0] := by
  rw [take_four (l.drop i) (by simp [List.length_drop]; omega)]
  simp [getD_drop]

theorem leU32_take (l : List Nat) {k i : Nat} (h : i + 4 ≤ k) :
    leU32 (l.take k) i = leU32 l i := by
  unfold leU32
  rw [getD_take_of_lt l (by omega : i < k), getD_take_of_lt l (by omega : i + 1 < k),
    getD_take_of_lt l (by omega : i + 2 < k), getD_take_of_lt l (by omega : i + 3 < k)]

/-! Step equations for the stream reader. -/

theorem rawRecords_nil_of_lt8 (l : List Nat) (h : l.length < 8) :
    rawRecords l = [] := by
  by_cases h4 : l.length < 4
  · rw [rawRecords, dif_pos h4]
  · rw [rawRecords, dif_neg h4, dif_pos h]

theorem rawRecords_nil_of_short (l : List Nat) (h8 : 8 ≤ l.length)
    (hs : (l.drop 8).length < leU32 l 4) : rawRecords l = [] := by
  rw [rawRecords, dif_neg (by omega : ¬l.length < 4),
    dif_neg (by omega : ¬l.length < 8), dif_pos hs]

theorem rawRecords_cons (l : List Nat) (h8 : 8 ≤ l.length)
    (hs : leU32 l 4 ≤ (l.drop 8).length) :
    rawRecords l = (leU32 l 0, leU32 l 4, (l.drop 8).take (leU32 l 4)) ::
      rawRecords ((l.drop 8).drop (leU32 l 4)) := by
  rw [rawRecords, dif_neg (by omega : ¬l.length < 4),
    dif_neg (by omega : ¬l.length < 8),
    dif_neg (by omega : ¬(l.drop 8).length < leU32 l 4)]

theorem cons_isPre {a : Nat × Nat × List Nat} {A B : List (Nat × Nat × List Nat)}
    (h : A <+: B) : a :: A <+: a :: B := by
  obtain ⟨t, ht⟩ := h
  exact ⟨t, by rw [List.cons_append, ht]⟩

/-- Truncating the input stream at any byte count yields a prefix of the
record list of the untruncated stream. -/
theorem rawRecords_take_le : ∀ (n : Nat) (l : List Nat), l.length ≤ n → ∀ (k : Nat),
    rawRecords (l.take k) <+: rawRecords l
  | 0, l, hl, k => by
    rw [rawRecords_nil_of_lt8 l (by omega),
      rawRecords_nil_of_lt8 (l.take k) (by simp [List.length_take]; omega)]
  | n + 1, l, hl, k => by
    by_cases h8 : l.length < 8
    · rw [rawRecords_nil_of_lt8 l h8,
        rawRecords_nil_of_lt8 (l.take k) (by simp [List.length_take]; omega)]
    · push_neg at h8
      by_cases hk : k < 8
      · rw [rawRecords_nil_of_lt8 (l.take k) (by simp [List.length_take]; omega)]
        exact ⟨rawRecords l, by simp⟩
      · push_neg at hk
        have hs4 : leU32 (l.take k) 4 = leU32 l 4 := leU32_take l (by omega)
        have ht0 : leU32 (l.take k) 0 = leU32 l 0 := leU32_take l (by omega)
        have hdrop : (l.take k).drop 8 = (l.drop 8).take (k - 8) := by
          rw [List.drop_take]
        have hdl := List.length_drop 8 l
        by_cases hfull : (l.drop 8).length < leU32 l 4
        · rw [rawRecords_nil_of_short l h8 hfull,
            rawRecords_nil_of_short (l.take k) (by simp [List.length_take]; omega)
              (by rw [hs4, hdrop]; simp [List.length_take, List.length_drop]; omega)]
        · push_neg at hfull
          by_cases hksh : k - 8 < leU32 l 4
          · rw [rawRecords_nil_of_short (l.take k) (by simp [List.length_take]; omega)
              (by rw [hs4, hdrop]; simp [List.length_take, List.length_drop]; omega)]
            exact ⟨rawRecords l, by simp⟩
          · push_neg at hksh
            rw [rawRecords_cons l h8 hfull,
              rawRecords_cons (l.take k) (by simp [List.length_take]; omega)
                (by rw [hs4, hdrop]; simp [List.length_take, List.length_drop]; omega)]
            rw [ht0, hs4, hdrop, List.take_take, List.drop_take, Nat.min_eq_left hksh]
            exact cons_isPre (rawRecords_take_le n ((l.drop 8).drop (leU32 l 4))
              (by simp [List.length_drop]; omega) (k - 8 - leU32 l 4))

/-- Every emitted record carries exactly `size` payload bytes: a partial
payload is discarded, never emitted. -/
theorem rawRecords_sizes : ∀ (n : Nat) (l : List Nat), l.length ≤ n →
    ∀ r ∈ rawRecords l, r.2.2.length = r.2.1
  | 0, l, hl => by
    rw [rawRecords_nil_of_lt8 l (by omega)]
    intro r hr
    simp at hr
  | n + 1, l, hl => by
    by_cases h8 : l.length < 8
    · rw [rawRecords_nil_of_lt8 l h8]
      intro r hr
      simp at hr
    · push_neg at h8
      by_cases hs : (l.drop 8).length < leU32 l 4
      · rw [rawRecords_nil_of_short l h8 hs]
        intro r hr
        simp at hr
      · push_neg at hs
        rw [rawRecords_cons l h8 hs]
        intro r hr
        rcases List.mem_cons.mp hr with h | h
        · subst h
          have hdl := List.length_drop 8 l
          simp [List.length_take]
          omega
        · exact rawRecords_sizes n ((l.drop 8).drop (leU32 l 4))
            (by simp [List.length_drop]; omega) r h

/-! Base64 and hex facts. -/

theorem b64chars_length : b64chars.length = 64 := by decide

theorem b64val_b64char {n : Nat} (h : n < 64) : b64val (b64char n) = n := by
  have key : ∀ i : Fin 64, b64val (b64char i.val) = i.val := by decide
  exact key ⟨n, h⟩

theorem b64char_ne_pad (n : Nat) : b64char n ≠ '=' := by
  rcases Nat.lt_or_ge n 64 with h | h
  · have key : ∀ i : Fin 64, b64char i.val ≠ '=' := by decide
    exact key ⟨n, h⟩
  · have hlen : b64chars.length ≤ n := by rw [b64chars_length]; omega
    rw [b64char, List.getD_eq_default _ _ hlen]
    decide

/-- Decoding inverts encoding on byte lists. -/
theorem b64decode_encode : ∀ (l : List Nat), (∀ b ∈ l, b < 256) →
    b64decode (b64encode l) = l
  | [], _ => rfl
  | [a], h => by
    have ha : a < 256 := h a (by simp)
    simp only [b64encode, b64decode]
    rw [if_pos trivial]
    rw [b64val_b64char (show a / 4 < 64 by omega),
      b64val_b64char (show a % 4 * 16 < 64 by omega)]
    simp only [List.cons.injEq, and_true]
    omega
  | [a, b], h => by
    have ha : a < 256 := h a (by simp)
    have hb : b < 256 := h b (by simp)
    simp only [b64encode, b64decode]
    rw [if_pos trivial, if_neg (b64char_ne_pad _)]
    rw [b64val_b64char (show a / 4 < 64 by omega),
      b64val_b64char (show a % 4 * 16 + b / 16 < 64 by omega),
      b64val_b64char (show b % 16 * 4 < 64 by omega)]
    simp only [List.cons.injEq, and_true]
    exact ⟨by omega, by omega⟩
  | a :: b :: c :: rest, h => by
    have ha : a < 256 := h a (by simp)
    have hb : b < 256 := h b (by simp)
    have hc : c < 256 := h c (by simp)
    simp only [b64encode, b64decode]
    rw [if_neg (b64char_ne_pad _), if_neg (b64char_ne_pad _)]
    rw [b64decode_encode rest (fun x hx => h x (by simp [hx]))]
    rw [b64val_b64char (show a / 4 < 64 by omega),
      b64val_b64char (show a % 4 * 16 + b / 16 < 64 by omega),
      b64val_b64char (show b % 16 * 4 + c / 64 < 64 by omega),
      b64val_b64char (show c % 64 < 64 by omega)]
    simp only [List.cons.injEq]
    exact ⟨by omega, by omega, by omega, trivial⟩

theorem flatten_hexByte_length (l : List Nat) :
    ((l.map hexByte).flatten).length = 2 * l.length := by
  induction l with
  | nil => rfl
  | cons a t ih => simp [hexByte, List.length_append, ih]; omega

theorem hexStr_length (l : List Nat) : (hexStr l).length = 2 * l.length :=
  flatten_hexByte_length l

/-! Claim theorems. -/

/-- C1: for every record whose type is an address-class code (socket name 2,
destination address 3, peer name 4) and whose size admits the SockAddr decode
step (at least 6 bytes), a decode step that yields no value degrades the
record's data to the raw fallback — full base64 plus full hex of the payload —
and never to any marker or other form; the decoder is a total function, so the
failure is never fatal. -/
theorem addr_decode_failure_falls_back (t resp_size : Nat) (payload : List Nat)
    (ht : t = RESP_SOCKNAME ∨ t = RESP_DSTADDR ∨ t = RESP_PEERNAME)
    (hsz : 6 ≤ resp_size)
    (hfail : parse_sockaddr (payload.drop 4) (leU16 payload 4) = none) :
    decodeRespData t resp_size payload =
      RespData.rawAddr (b64encodeStr payload) (hexStr payload) := by
  have hc : (t = RESP_DSTADDR ∨ t = RESP_SOCKNAME ∨ t = RESP_PEERNAME) ∧
      6 ≤ resp_size := by
    refine ⟨?_, hsz⟩
    rcases ht with h | h | h <;>
      simp [h, RESP_SOCKNAME, RESP_DSTADDR, RESP_PEERNAME]
  rw [decodeRespData, if_pos hc, hfail]

theorem addr_decode_failure_falls_back_witness :
    decodeRespData 2 6 [0, 0, 0, 0, 9, 0] =
      RespData.rawAddr (b64encodeStr [0, 0, 0, 0, 9, 0]) (hexStr [0, 0, 0, 0, 9, 0]) :=
  addr_decode_failure_falls_back 2 6 [0, 0, 0, 0, 9, 0] (Or.inl rfl) (by decide)
    (by decide)

/-- C2: whenever the family-0 heuristic of `parse_sockaddr` produces a decoded
value, the reported port is chosen by reading the two bytes at offset 6 in
both byte orders: big-endian if that reading equals 80, else little-endian if
that reading equals 80, else little-endian by default. -/
theorem family0_port_heuristic (data : List Nat) (sa : SockAddrIn)
    (hlen : 8 ≤ data.length) (h : parse_sockaddr data 0 = some sa) :
    sa.port = (if beU16 data 6 = 80 then beU16 data 6
      else if leU16 data 6 = 80 then leU16 data 6 else leU16 data 6) := by
  rw [parse_sockaddr, if_pos ⟨rfl, hlen⟩] at h
  split at h
  · split at h
    · have he := Option.some.inj h
      subst he
      rfl
    · have he := Option.some.inj h
      subst he
      rfl
  · simp [parse_sockaddr_tail, AF_INET, AF_INET6, AF_INET6_LOCAL] at h

theorem family0_port_heuristic_witness :
    (SockAddrIn.mk "AF_INET" (some "1.2.3.4") 80 none none).port =
      (if beU16 [0, 0, 0, 0, 0, 0, 0, 80, 1, 2, 3, 4] 6 = 80 then
        beU16 [0, 0, 0, 0, 0, 0, 0, 80, 1, 2, 3, 4] 6
      else if leU16 [0, 0, 0, 0, 0, 0, 0, 80, 1, 2, 3, 4] 6 = 80 then
        leU16 [0, 0, 0, 0, 0, 0, 0, 80, 1, 2, 3, 4] 6
      else leU16 [0, 0, 0, 0, 0, 0, 0, 80, 1, 2, 3, 4] 6) :=
  family0_port_heuristic [0, 0, 0, 0, 0, 0, 0, 80, 1, 2, 3, 4] _ (by decide) (by decide)

/-- C3: the Record Stream Reader is a total function (truncation never
raises), truncating the input at `k` bytes yields a record list that is a
prefix of the list for any longer truncation `k'`, and every emitted record
carries a payload of exactly its declared size — a partially read header or
payload is discarded, never emitted. -/
theorem stream_reader_truncation_monotone (l : List Nat) (k k' : Nat)
    (hk : k ≤ k') :
    rawRecords (l.take k) <+: rawRecords (l.take k') ∧
    ∀ r ∈ rawRecords (l.take k), r.2.2.length = r.2.1 := by
  constructor
  · have h1 : (l.take k').take k = l.take k := by
      rw [List.take_take]
      congr 1
      exact Nat.min_eq_left hk
    rw [← h1]
    exact rawRecords_take_le (l.take k').length (l.take k') le_rfl k
  · exact rawRecords_sizes (l.take k).length (l.take k) le_rfl

theorem stream_reader_truncation_monotone_witness :
    rawRecords (([1, 0, 0, 0, 2, 0, 0, 0, 7, 7, 9, 0, 0, 0, 0, 0, 2, 0] : List Nat).take 9) <+:
      rawRecords (([1, 0, 0, 0, 2, 0, 0, 0, 7, 7, 9, 0, 0, 0, 0, 0, 2, 0] : List Nat).take 18) :=
  (stream_reader_truncation_monotone [1, 0, 0, 0, 2, 0, 0, 0, 7, 7, 9, 0, 0, 0, 0, 0, 2, 0]
    9 18 (by decide)).1

/-- C4: with family hint `AF_INET` (2) and at least 8 bytes,
`parse_sockaddr` reports family AF_INET, port read little-endian from
bytes 2–3, and the dotted-decimal text of bytes 4–7 as the address; with
fewer than 8 bytes it reports no decoded value. -/
theorem af_inet_decode (data : List Nat) :
    (8 ≤ data.length →
      parse_sockaddr data AF_INET =
        some ⟨"AF_INET",
          some (ipv4Dotted (data.getD 4 0) (data.getD 5 0) (data.getD 6 0)
            (data.getD 7 0)),
          data.getD 2 0 + 256 * data.getD 3 0, none, none⟩) ∧
    (data.length < 8 → parse_sockaddr data AF_INET = none) := by
  constructor
  · intro hlen
    rw [parse_sockaddr, if_neg (by simp [AF_INET]), parse_sockaddr_tail,
      if_pos rfl, if_neg (by omega), take4_drop data 4 (by omega)]
    simp [inet_ntoa, leU16]
  · intro hlen
    rw [parse_sockaddr, if_neg (by simp [AF_INET]), parse_sockaddr_tail,
      if_pos rfl, if_pos hlen]

theorem af_inet_decode_witness :
    parse_sockaddr [2, 0, 80, 0, 93, 184, 216, 34] AF_INET =
      some ⟨"AF_INET", some "93.184.216.34", 80, none, none⟩ := by
  rw [(af_inet_decode [2, 0, 80, 0, 93, 184, 216, 34]).1 (by decide)]
  decide

/-- C5: with family hint 10 (Linux AF_INET6) or 28 (the platform alternate)
and at least 24 bytes, `parse_sockaddr` reports family AF_INET6, port read
little-endian from bytes 2–3, flow info read little-endian from bytes 4–7,
the canonical IPv6 text of bytes 8–23 as the address, and a scope id read
little-endian from bytes 24–27 exactly when at least 28 bytes are present. -/
theorem af_inet6_decode (data : List Nat) (fam : Nat)
    (hf : fam = AF_INET6 ∨ fam = AF_INET6_LOCAL) (hlen : 24 ≤ data.length) :
    parse_sockaddr data fam =
      some ⟨"AF_INET6", some (ipv6_ntop ((data.drop 8).take 16)),
        data.getD 2 0 + 256 * data.getD 3 0,
        some (data.getD 4 0 + 256 * data.getD 5 0 + 65536 * data.getD 6 0 +
          16777216 * data.getD 7 0),
        if 28 ≤ data.length then
          some (data.getD 24 0 + 256 * data.getD 25 0 + 65536 * data.getD 26 0 +
            16777216 * data.getD 27 0)
        else none⟩ := by
  have hne : ¬(fam = 0 ∧ 8 ≤ data.length) := by
    rcases hf with h | h <;> simp [h, AF_INET6, AF_INET6_LOCAL]
  rw [parse_sockaddr, if_neg hne, parse_sockaddr_tail,
    if_neg (by rcases hf with h | h <;> simp [h, AF_INET, AF_INET6, AF_INET6_LOCAL]),
    if_pos hf, if_neg (by omega)]
  simp [leU16, leU32]

theorem af_inet6_decode_witness :
    parse_sockaddr
      [10, 0, 80, 0, 1, 0, 0, 0, 0, 0, 0, 0, 0, 0, 0, 0, 0, 0, 0, 0, 0, 0, 0, 1] 10 =
      some ⟨"AF_INET6", some "::1", 80, some 1, none⟩ := by
  rw [af_inet6_decode
    [10, 0, 80, 0, 1, 0, 0, 0, 0, 0, 0, 0, 0, 0, 0, 0, 0, 0, 0, 0, 0, 0, 0, 1] 10
    (Or.inl rfl) (by decide)]
  decide

/-- C6: with family hint 0 and the four bytes at offset 8 all zero (and
enough bytes for the heuristic's address read), the decoded value reports the
address as absent — not the literal text 0.0.0.0 — while still reporting
family AF_INET and the heuristically chosen port. -/
theorem family0_blank_address (data : List Nat) (hlen : 12 ≤ data.length)
    (hz : data.getD 8 0 = 0 ∧ data.getD 9 0 = 0 ∧ data.getD 10 0 = 0 ∧
      data.getD 11 0 = 0) :
    parse_sockaddr data 0 =
      some ⟨"AF_INET", none,
        if beU16 data 6 = 80 then beU16 data 6
        else if leU16 data 6 = 80 then leU16 data 6 else leU16 data 6,
        none, none⟩ := by
  have h0 : ipv4Dotted 0 0 0 0 = "0.0.0.0" := by decide
  rw [parse_sockaddr, if_pos ⟨rfl, by omega⟩, take4_drop data 8 (by omega),
    hz.1, hz.2.1, hz.2.2.1, hz.2.2.2]
  simp [inet_ntoa, h0]

theorem family0_blank_address_witness :
    parse_sockaddr [0, 0, 0, 0, 0, 0, 0, 0, 0, 0, 0, 0] 0 =
      some ⟨"AF_INET", none, 0, none, none⟩ := by
  rw [family0_blank_address [0, 0, 0, 0, 0, 0, 0, 0, 0, 0, 0, 0] (by decide) (by decide)]
  decide

/-- C7: a packet record's base64 field encodes the payload losslessly; when
the payload is at most 100 bytes the hex field is the full hex of the payload
and is recovered by hex-encoding the base64-decoded value, and when it
exceeds 100 bytes the hex field is exactly the 200 hex characters of the
first 100 bytes followed by the truncation marker. -/
theorem packet_roundtrip (resp_size : Nat) (payload : List Nat)
    (hsz : resp_size = payload.length) (hb : ∀ b ∈ payload, b < 256) :
    decodeRespData RESP_PACKET resp_size payload =
      RespData.packet resp_size (b64encodeStr payload) (truncHex resp_size payload) ∧
    b64decode (b64encodeStr payload).data = payload ∧
    (resp_size ≤ 100 →
      truncHex resp_size payload = hexStr payload ∧
      hexStr (b64decode (b64encodeStr payload).data) = hexStr payload) ∧
    (100 < resp_size →
      truncHex resp_size payload = hexStr (payload.take 100) ++ "..." ∧
      (hexStr (payload.take 100)).length = 200) := by
  have hdec : b64decode (b64encodeStr payload).data = payload :=
    b64decode_encode payload hb
  refine ⟨?_, hdec, fun h100 => ⟨?_, by rw [hdec]⟩, fun h100 => ⟨?_, ?_⟩⟩
  · rw [decodeRespData,
      if_neg (by simp [RESP_PACKET, RESP_DSTADDR, RESP_SOCKNAME, RESP_PEERNAME]),
      if_pos rfl]
  · rw [truncHex, if_pos h100]
  · rw [truncHex, if_neg (by omega)]
  · rw [hexStr_length, List.length_take]
    omega

theorem packet_roundtrip_witness :
    b64decode (b64encodeStr [0, 1, 2, 255]).data = [0, 1, 2, 255] :=
  (packet_roundtrip 4 [0, 1, 2, 255] rfl (by decide)).2.1

/-- C8 counterexample: an 8-byte family-0 input satisfies the claim's
length bound yet `parse_sockaddr` yields no decoded value (the address read
at offset 8 needs 4 bytes, and `inet_ntoa` fails on the short slice). -/
theorem family0_len8_cex :
    8 ≤ ([0, 0, 0, 0, 0, 0, 0, 80] : List Nat).length ∧
    parse_sockaddr [0, 0, 0, 0, 0, 0, 0, 80] 0 = none :=
  ⟨by decide, by decide⟩

/-- C8 (amended): with family hint 0 and at least 12 bytes the
disambiguation heuristic returns a decoded IPv4-family value, with
bytes 8–11 interpreted as the address (absent when all zero). -/
theorem family0_heuristic_needs12 (data : List Nat) (hlen : 12 ≤ data.length) :
    parse_sockaddr data 0 =
      some ⟨"AF_INET",
        if ipv4Dotted (data.getD 8 0) (data.getD 9 0) (data.getD 10 0)
            (data.getD 11 0) = "0.0.0.0" then none
        else some (ipv4Dotted (data.getD 8 0) (data.getD 9 0) (data.getD 10 0)
          (data.getD 11 0)),
        if beU16 data 6 = 80 then beU16 data 6
        else if leU16 data 6 = 80 then leU16 data 6 else leU16 data 6,
        none, none⟩ := by
  rw [parse_sockaddr, if_pos ⟨rfl, by omega⟩, take4_drop data 8 (by omega)]
  simp only [inet_ntoa]
  by_cases hcond : ipv4Dotted (data.getD 8 0) (data.getD 9 0) (data.getD 10 0)
      (data.getD 11 0) = "0.0.0.0"
  · rw [if_pos hcond, if_pos hcond]
  · rw [if_neg hcond, if_neg hcond]

theorem family0_heuristic_needs12_witness :
    parse_sockaddr [0, 0, 0, 0, 0, 0, 0, 80, 1, 2, 3, 4] 0 =
      some ⟨"AF_INET", some "1.2.3.4", 80, none, none⟩ := by
  rw [family0_heuristic_needs12 [0, 0, 0, 0, 0, 0, 0, 80, 1, 2, 3, 4] (by decide)]
  decide

/-- C9: the permissive UTF-8 decode of a generic-data record is total, so the
record's data always has the text form (text, size, base64); the raw fallback
branch of the generic-data strategy is unreachable. -/
theorem generic_data_always_text (resp_size : Nat) (payload : List Nat) :
    decodeRespData RESP_DATA resp_size payload =
      RespData.textData (String.mk (utf8DecodeIgnore payload)) resp_size
        (b64encodeStr payload) := by
  rw [decodeRespData,
    if_neg (by simp [RESP_DATA, RESP_DSTADDR, RESP_SOCKNAME, RESP_PEERNAME]),
    if_neg (by simp [RESP_DATA, RESP_PACKET]), if_pos rfl]
  rfl

/-- C10: type code 4 is both the peer-name and the read-error code; with size
at least 6 the record is decoded by the address-class strategy (a decoded
SockAddr or the address raw fallback, never the error marker), and with size
below 6 it yields exactly the error marker. -/
theorem type4_overload_dispatch (resp_size : Nat) (payload : List Nat) :
    (6 ≤ resp_size →
      decodeRespData RESP_PEERNAME resp_size payload ≠ RespData.errorMarker ∧
      ((∃ sa, decodeRespData RESP_PEERNAME resp_size payload = RespData.sockaddr sa) ∨
        decodeRespData RESP_PEERNAME resp_size payload =
          RespData.rawAddr (b64encodeStr payload) (hexStr payload))) ∧
    (resp_size < 6 →
      decodeRespData RESP_PEERNAME resp_size payload = RespData.errorMarker) := by
  constructor
  · intro hsz
    rw [decodeRespData, if_pos ⟨Or.inr (Or.inr rfl), hsz⟩]
    cases hp : parse_sockaddr (payload.drop 4) (leU16 payload 4) with
    | some sa => exact ⟨by simp, Or.inl ⟨sa, rfl⟩⟩
    | none => exact ⟨by simp, Or.inr rfl⟩
  · intro hsz
    rw [decodeRespData, if_neg (fun hc => absurd hc.2 (by omega)),
      if_neg (by decide), if_neg (by decide), if_neg (by decide),
      if_pos (show RESP_PEERNAME = RESP_READ_ERROR from rfl)]

theorem type4_overload_dispatch_witness :
    decodeRespData RESP_PEERNAME 0 [] = RespData.errorMarker ∧
    decodeRespData RESP_PEERNAME 6 [0, 0, 0, 0, 9, 0] ≠ RespData.errorMarker :=
  ⟨(type4_overload_dispatch 0 []).2 (by decide),
    ((type4_overload_dispatch 6 [0, 0, 0, 0, 9, 0]).1 (by decide)).1⟩

end AtlasConvert
